import Mathlib

/-!
Verification development for the Dow 30 earnings-report discovery pipeline.

The definitions below are a shallow embedding of the Python sources:
  - src/enhanced_selenium_scraper.py   (DocumentLink, EnhancedSeleniumScraper)
  - src/orchestrator.py                (process_company)
  - src/simple_metadata_collector.py   (SimpleMetadataCollector)

Strings are handled at the character-list level so that all definitions
compute inside the kernel.  External effects (the Selenium page renderer,
the network, the filesystem clock) are passed in as explicit oracle
parameters.
-/

/-! ## Character and string helpers (models of Python str primitives) -/

/-- Models Python str.lower for the ASCII range used by the scraper. -/
def pyLower (s : String) : List Char := s.toList.map Char.toLower

/-- Decides whether the pattern list is a prefix of the subject list. -/
def startsWithCL : List Char → List Char → Bool
  | [], _ => true
  | _ :: _, [] => false
  | p :: ps, c :: cs => p = c && startsWithCL ps cs

/-- Models the Python substring test `sub in s`. -/
def containsSub : List Char → List Char → Bool
  | s, sub =>
    if startsWithCL sub s then true
    else match s with
      | [] => false
      | _ :: t => containsSub t sub

/-- Numeric value of a decimal digit character. -/
def digitVal (c : Char) : Option Nat :=
  if c.isDigit then some (c.toNat - '0'.toNat) else none

def pyIntAux : List Char → Nat → Option Nat
  | [], acc => some acc
  | c :: cs, acc =>
    match digitVal c with
    | some d => pyIntAux cs (acc * 10 + d)
    | none => none

/-- Models Python int(s) on the nonnegative digit strings produced by the
extractor; none models a ValueError. -/
def pyInt? (s : String) : Option Nat :=
  match s.toList with
  | [] => none
  | l => pyIntAux l 0

/-- Python max over a list, as an Option for the empty case. -/
def list_max : List Nat → Option Nat
  | [] => none
  | x :: xs =>
    match list_max xs with
    | none => some x
    | some m => some (max x m)

/-! ## Regex primitives

The extractor uses re.findall with a fixed set of patterns.  Each pattern
is embedded as a matcher that, at one position of the subject (given the
previous character for word boundaries), either fails or returns the
captured groups together with the number of characters consumed.  The
driver reproduces the left-to-right non-overlapping scan of re.findall. -/

/-- A regex word character, as in the \w class. -/
def isWordChar (c : Char) : Bool := c.isAlphanum || c = '_'

/-- A word boundary holds before the current position. -/
def boundaryBefore : Option Char → Bool
  | none => true
  | some c => !(isWordChar c)

/-- A word boundary holds between the consumed text and the remainder. -/
def boundaryAfter : List Char → Bool
  | [] => true
  | c :: _ => !(isWordChar c)

/-- One step of re.findall: try the matcher at each position, skipping the
consumed characters after a hit.  Fuel bounds the scan; it is always called
with more fuel than there are characters. -/
def reFindAux (m : Option Char → List Char → Option (α × Nat)) :
    Nat → Option Char → List Char → List α
  | 0, _, _ => []
  | _ + 1, _, [] => []
  | fuel + 1, prev, c :: cs =>
    match m prev (c :: cs) with
    | some (a, n) =>
        a :: reFindAux m fuel ((c :: cs).take n).getLast? ((c :: cs).drop n)
    | none => reFindAux m fuel (some c) cs

/-- Models re.findall(pattern, s) for a pattern embedded as a matcher. -/
def reFindAll (m : Option Char → List Char → Option (α × Nat)) (s : List Char) : List α :=
  reFindAux m (s.length + 1) none s

/-! ## The matchers for the extractor patterns (extract_year_quarter) -/

/-- Matcher for the separator class [-\s]. -/
def sepChar (c : Char) : Bool := c = '-' || c.isWhitespace

/-- Matcher for the quarter digit class [1-4]. -/
def qdigit (c : Char) : Bool := c = '1' || c = '2' || c = '3' || c = '4'

/-- Pattern (year patterns, 1 of 5): \b(2025|2026)\b. -/
def m_year_bound (prev : Option Char) (cs : List Char) : Option (String × Nat) :=
  if boundaryBefore prev then
    if startsWithCL "2025".toList cs && boundaryAfter (cs.drop 4) then some ("2025", 4)
    else if startsWithCL "2026".toList cs && boundaryAfter (cs.drop 4) then some ("2026", 4)
    else none
  else none

/-- Pattern (year patterns, 2 of 5): (2025|2026)[q\-]. -/
def m_year_qdash (_ : Option Char) (cs : List Char) : Option (String × Nat) :=
  if startsWithCL "2025".toList cs then
    match cs.drop 4 with
    | c :: _ => if c = 'q' || c = '-' then some ("2025", 5) else none
    | [] => none
  else if startsWithCL "2026".toList cs then
    match cs.drop 4 with
    | c :: _ => if c = 'q' || c = '-' then some ("2026", 5) else none
    | [] => none
  else none

/-- Pattern (year patterns, 3 of 5): [q\-](2025|2026). -/
def m_qdash_year (_ : Option Char) (cs : List Char) : Option (String × Nat) :=
  match cs with
  | c :: rest =>
    if c = 'q' || c = '-' then
      if startsWithCL "2025".toList rest then some ("2025", 5)
      else if startsWithCL "2026".toList rest then some ("2026", 5)
      else none
    else none
  | [] => none

/-- Pattern (year patterns, 4 of 5): fy(2025|2026). -/
def m_fy_year (_ : Option Char) (cs : List Char) : Option (String × Nat) :=
  if startsWithCL "fy2025".toList cs then some ("2025", 6)
  else if startsWithCL "fy2026".toList cs then some ("2026", 6)
  else none

/-- Pattern (year patterns, 5 of 5): (2025|2026)fy. -/
def m_year_fy (_ : Option Char) (cs : List Char) : Option (String × Nat) :=
  if startsWithCL "2025fy".toList cs then some ("2025", 6)
  else if startsWithCL "2026fy".toList cs then some ("2026", 6)
  else none

/-- Two-digit pattern 1: fy(25|26)\b.  Python re.findall returns the single
group as the string "25" or "26"; the consumer then indexes its characters,
so the match is embedded as the pair of its two characters. -/
def m_fy2 (_ : Option Char) (cs : List Char) : Option ((String × String) × Nat) :=
  if startsWithCL "fy25".toList cs && boundaryAfter (cs.drop 4) then some (("2", "5"), 4)
  else if startsWithCL "fy26".toList cs && boundaryAfter (cs.drop 4) then some (("2", "6"), 4)
  else none

/-- Two-digit pattern 2: \b(25|26)fy\b, embedded like m_fy2. -/
def m_2fy (prev : Option Char) (cs : List Char) : Option ((String × String) × Nat) :=
  if boundaryBefore prev then
    if startsWithCL "25fy".toList cs && boundaryAfter (cs.drop 4) then some (("2", "5"), 4)
    else if startsWithCL "26fy".toList cs && boundaryAfter (cs.drop 4) then some (("2", "6"), 4)
    else none
  else none

/-- Tail of two-digit pattern 3 after the year: [-\s]?q([1-4])\b, returning
the quarter digit and the extra characters consumed. -/
def m_fyq_tail : List Char → Option (String × Nat)
  | 'q' :: d :: rest =>
    if qdigit d && boundaryAfter rest then some (String.mk [d], 2) else none
  | c :: 'q' :: d :: rest =>
    if sepChar c && qdigit d && boundaryAfter rest then some (String.mk [d], 3) else none
  | _ => none

/-- Two-digit pattern 3: fy(25|26)[-\s]?q([1-4])\b, groups (year, quarter). -/
def m_fy_sep_q (_ : Option Char) (cs : List Char) : Option ((String × String) × Nat) :=
  if startsWithCL "fy25".toList cs then
    match m_fyq_tail (cs.drop 4) with
    | some (d, k) => some (("25", d), 4 + k)
    | none => none
  else if startsWithCL "fy26".toList cs then
    match m_fyq_tail (cs.drop 4) with
    | some (d, k) => some (("26", d), 4 + k)
    | none => none
  else none

/-- Tail of two-digit pattern 4 after the quarter: [-\s]?fy(25|26)\b,
returning the year group and the extra characters consumed. -/
def m_qfy_tail : List Char → Option (String × Nat)
  | 'f' :: 'y' :: t =>
    if startsWithCL "25".toList t && boundaryAfter (t.drop 2) then some ("25", 4)
    else if startsWithCL "26".toList t && boundaryAfter (t.drop 2) then some ("26", 4)
    else none
  | c :: 'f' :: 'y' :: t =>
    if sepChar c then
      if startsWithCL "25".toList t && boundaryAfter (t.drop 2) then some ("25", 5)
      else if startsWithCL "26".toList t && boundaryAfter (t.drop 2) then some ("26", 5)
      else none
    else none
  | _ => none

/-- Two-digit pattern 4: q([1-4])[-\s]?fy(25|26)\b, groups (quarter, year). -/
def m_q_sep_fy (_ : Option Char) (cs : List Char) : Option ((String × String) × Nat) :=
  match cs with
  | 'q' :: d :: rest =>
    if qdigit d then
      match m_qfy_tail rest with
      | some (yy, k) => some ((String.mk [d], yy), 2 + k)
      | none => none
    else none
  | _ => none

/-- Bare quarter pattern: \bq([1-4])\b, capturing the digit as a number. -/
def m_qbare (prev : Option Char) (cs : List Char) : Option (Nat × Nat) :=
  match cs with
  | 'q' :: d :: rest =>
    if boundaryBefore prev && qdigit d && boundaryAfter rest then
      some ((digitVal d).getD 0, 2)
    else none
  | _ => none

/-! ## EnhancedSeleniumScraper.extract_year_quarter -/

/-- The Python list ['1', '2', '3', '4'] tested against match components. -/
def quarter_digit_strings : List String := ["1", "2", "3", "4"]

/-- The body of the loop over the 2-digit matches: when the first component
is a quarter digit it is the quarter and the second is the 2-digit year
(this is the branch the string matches of fy25-style patterns fall into,
character-indexed), and symmetrically; anything else contributes nothing. -/
def two_digit_step (acc : List String × List Nat) (m : String × String) :
    List String × List Nat :=
  if quarter_digit_strings.contains m.1 then
    (acc.1 ++ ["20" ++ m.2], acc.2 ++ [(pyInt? m.1).getD 0])
  else if quarter_digit_strings.contains m.2 then
    (acc.1 ++ ["20" ++ m.1], acc.2 ++ [(pyInt? m.2).getD 0])
  else acc

/-- Embedding of EnhancedSeleniumScraper.extract_year_quarter.  datetime.now().year
is the explicit parameter current_year; everything else follows the source:
the three fields are joined with spaces and lowercased, the five 4-digit-year
patterns contribute year strings, the four 2-digit patterns contribute
(match[0], match[1]) components interpreted by the quarter-digit test, bare
q1..q4 contribute quarters, candidate years parse through int() and are kept
when at most current_year + 1, and the maxima are returned. -/
def extract_year_quarter (current_year : Nat) (text url title : String) :
    Option Nat × Option Nat :=
  let combined_text := pyLower (text ++ " " ++ title ++ " " ++ url)
  let years4 :=
    reFindAll m_year_bound combined_text ++ reFindAll m_year_qdash combined_text ++
    reFindAll m_qdash_year combined_text ++ reFindAll m_fy_year combined_text ++
    reFindAll m_year_fy combined_text
  let twoDigitMatches :=
    reFindAll m_fy2 combined_text ++ reFindAll m_2fy combined_text ++
    reFindAll m_fy_sep_q combined_text ++ reFindAll m_q_sep_fy combined_text
  let yq := twoDigitMatches.foldl two_digit_step (([], []) : List String × List Nat)
  let years_found := years4 ++ yq.1
  let quarters_found := yq.2 ++ reFindAll m_qbare combined_text
  let valid_years := years_found.filterMap (fun s =>
    match pyInt? s with
    | some y => if y ≤ current_year + 1 then some y else none
    | none => none)
  (list_max valid_years, list_max quarters_found)


/-! ## EnhancedSeleniumScraper.is_latest_quarter_document and find_latest_quarter -/

/-- Embedding of EnhancedSeleniumScraper.is_latest_quarter_document.  The
latest_year and latest_quarter arguments are the (always present) outputs of
find_latest_quarter. -/
def is_latest_quarter_document (current_year : Nat) (text url title : String)
    (latest_year latest_quarter : Nat) : Bool :=
  match extract_year_quarter current_year text url title with
  | (none, _) => true
  | (some doc_year, doc_quarter) =>
    if doc_year < latest_year then false
    else if doc_year > latest_year then true
    else
      match doc_quarter with
      | none => true
      | some q => if q < latest_quarter then false else true

/-! ## DocumentLink -/

/-- Embedding of the DocumentLink record (enhanced_selenium_scraper.py).
The text and title fields hold the already-stripped values computed in
__init__; file_extension and document_type are derived below. -/
structure DocumentLink where
  href : String
  text : String
  title : String
  link_type : String
  full_html : String
  source_url : Option String
deriving DecidableEq, Repr

/-- Python str.split(sep) for a single-character separator: every maximal
run between separators, including empty runs. -/
def splitDot : List Char → List (List Char)
  | [] => [[]]
  | c :: cs =>
    if c = '.' then [] :: splitDot cs
    else
      match splitDot cs with
      | [] => [[c]]
      | h :: t => (c :: h) :: t

/-- Embedding of DocumentLink._get_file_extension: the last '.'-separated
segment of the whole href, lowercased, or the empty string when the href
has no dot (or is empty). -/
def get_file_extension (href : String) : String :=
  if href = "" then ""
  else if href.toList.contains '.' then
    String.mk (((splitDot href.toList).getLastD []).map Char.toLower)
  else ""

def DocumentLink.file_extension (l : DocumentLink) : String :=
  get_file_extension l.href

/-- The extension-to-label table of DocumentLink._classify_document_type. -/
def doc_types : List (String × String) :=
  [("pdf", "PDF Document"), ("doc", "Word Document"), ("docx", "Word Document"),
   ("xls", "Excel Spreadsheet"), ("xlsx", "Excel Spreadsheet"),
   ("ppt", "PowerPoint Presentation"), ("pptx", "PowerPoint Presentation"),
   ("zip", "Archive"), ("rar", "Archive"), ("csv", "CSV Data"),
   ("txt", "Text Document"), ("rtf", "Rich Text"), ("xml", "XML Document"),
   ("json", "JSON Data"), ("html", "Web Page"), ("htm", "Web Page"),
   ("wav", "Audio File"), ("mp3", "Audio File")]

/-- Embedding of DocumentLink._classify_document_type. -/
def DocumentLink.document_type (l : DocumentLink) : String :=
  let ext := l.file_extension
  if ext = "" then "unknown"
  else
    match doc_types.lookup ext with
    | some label => label
    | none => String.mk (ext.toList.map Char.toUpper) ++ " File"

def DocumentLink.is_document (l : DocumentLink) : Bool :=
  l.link_type = "document"

def DocumentLink.is_navigational (l : DocumentLink) : Bool :=
  l.link_type = "navigational"

/-- Embedding of EnhancedSeleniumScraper.find_latest_quarter.  The truthiness
test `if year:` of the source excludes both None and 0.  A found year with no
quarter defaults to quarter 4; with no usable pairs at all the result is
(datetime.now().year, 4), with the current year passed explicitly. -/
def find_latest_quarter (current_year : Nat) (document_links : List DocumentLink) :
    Nat × Nat :=
  let year_quarter_pairs := document_links.filterMap (fun link =>
    match extract_year_quarter current_year link.text link.href link.title with
    | (some year, quarter) =>
      if year = 0 then none else some (year, quarter.getD 4)
    | (none, _) => none)
  match year_quarter_pairs with
  | [] => (current_year, 4)
  | p :: rest =>
    let latest_year := (list_max ((p :: rest).map Prod.fst)).getD p.1
    let latest_quarter :=
      (list_max (((p :: rest).filter (fun yq => yq.1 = latest_year)).map Prod.snd)).getD p.2
    (latest_year, latest_quarter)

def mkDocLink (text href title : String) : DocumentLink :=
  ⟨href, text, title, "document", "", none⟩


/-! ## URL helpers (models of urllib.parse for the URL shapes the scraper sees) -/

def pyLowerS (s : String) : String := String.mk (pyLower s)

/-- Models Python str.strip(). -/
def pyStrip (s : String) : String :=
  String.mk (((s.toList.dropWhile Char.isWhitespace).reverse.dropWhile Char.isWhitespace).reverse)

/-- Models str.replace(" ", "-"), used on the scoring fields. -/
def pyDash (s : String) : String :=
  String.mk (s.toList.map (fun c => if c = ' ' then '-' else c))

/-- Decides whether the first list is a suffix of the second. -/
def endsWithCL (suffix s : List Char) : Bool :=
  startsWithCL suffix.reverse s.reverse

def takeNetloc : List Char → List Char
  | [] => []
  | c :: cs => if c = '/' || c = '?' || c = '#' then [] else c :: takeNetloc cs

/-- Models urllib.parse.urlparse(url).netloc for the absolute http(s) URLs
the scraper compares; URLs with no scheme have an empty netloc. -/
def netloc (url : String) : String :=
  if startsWithCL "http://".toList url.toList then
    String.mk (takeNetloc (url.toList.drop 7))
  else if startsWithCL "https://".toList url.toList then
    String.mk (takeNetloc (url.toList.drop 8))
  else ""

/-- The scheme://netloc origin of an absolute URL. -/
def schemeAndNetloc (base : String) : String :=
  if startsWithCL "http://".toList base.toList then "http://" ++ netloc base
  else if startsWithCL "https://".toList base.toList then "https://" ++ netloc base
  else ""

/-- The base URL up to and including its final slash. -/
def dropLastSegment (cs : List Char) : List Char :=
  (cs.reverse.dropWhile (fun c => c ≠ '/')).reverse

/-- Models urllib.parse.urljoin for the href shapes the crawler produces:
an absolute href is returned unchanged, a root-relative href replaces the
whole path of the base, any other relative href replaces the last path
segment of the base. -/
def urljoin (base href : String) : String :=
  if startsWithCL "http://".toList href.toList || startsWithCL "https://".toList href.toList then
    href
  else if startsWithCL "/".toList href.toList then
    schemeAndNetloc base ++ href
  else
    String.mk (dropLastSegment base.toList) ++ href

/-! ## EnhancedSeleniumScraper link handling -/

/-- The tuple of document file extensions of classify_link. -/
def document_extensions : List String :=
  [".pdf", ".doc", ".docx", ".xls", ".xlsx", ".ppt", ".pptx",
   ".zip", ".rar", ".csv", ".txt", ".rtf", ".xml", ".json"]

/-- The document-intent keywords of classify_link. -/
def document_keywords : List String := ["file", "download", "document", "attachment"]

/-- The exclusion_domains set fixed in EnhancedSeleniumScraper.__init__. -/
def exclusion_domains : List String :=
  ["q4inc.com", "investorcalendar.com", "webcast.com", "eventbrite.com",
   "zoom.us", "teams.microsoft.com", "webex.com", "gotomeeting.com"]

/-- Embedding of EnhancedSeleniumScraper.classify_link. -/
def classify_link (href base_url : String) : String :=
  if href = "" then "invalid"
  else if document_extensions.any (fun e => endsWithCL e.toList (pyLower href)) then
    "document"
  else if document_keywords.any (fun k => containsSub (pyLower href) k.toList) then
    "document"
  else if startsWithCL "/".toList href.toList then "internal"
  else if startsWithCL "http://".toList href.toList ||
          startsWithCL "https://".toList href.toList then
    if netloc base_url = netloc href then "internal" else "external"
  else "internal"

/-- Embedding of EnhancedSeleniumScraper.is_internal_link. -/
def is_internal_link (url base_url : String) : Bool :=
  netloc base_url = netloc url

/-- Embedding of EnhancedSeleniumScraper.resolve_url. -/
def resolve_url (href base_url : String) : Option String :=
  if href = "" then none
  else if startsWithCL "http://".toList href.toList ||
          startsWithCL "https://".toList href.toList then some href
  else some (urljoin base_url href)

/-- Embedding of EnhancedSeleniumScraper.is_url_excluded. -/
def is_url_excluded (url : String) : Bool :=
  if url = "" then true
  else
    let domain := pyLower (netloc url)
    exclusion_domains.any (fun d => containsSub domain d.toList)

/-- One anchor (an a tag with an href attribute) of a rendered page, as the
rendering collaborator hands it to the crawler. -/
structure LinkElem where
  href : String
  text : String
  title : String
deriving DecidableEq, Repr

/-- Models str(link_element) for an anchor carrying these attributes. -/
def LinkElem.render (le : LinkElem) : String :=
  "<a href=\"" ++ le.href ++ "\" title=\"" ++ le.title ++ "\">" ++ le.text ++ "</a>"

/-- Embedding of EnhancedSeleniumScraper.create_document_link.  The network
fetch of get_pdf_title_from_url is the oracle pdfTitle. -/
def create_document_link (pdfTitle : String → Option String) (le : LinkElem)
    (base_url : String) (source_url : Option String) : Option DocumentLink :=
  let text := pyStrip le.text
  let title := le.title
  match resolve_url le.href base_url with
  | none => none
  | some full_url =>
    let link_type := classify_link full_url base_url
    let title2 :=
      if link_type = "document" then
        match pdfTitle full_url with
        | some t => t
        | none => title
      else title
    some ⟨full_url, pyStrip text, pyStrip title2, link_type, le.render, source_url⟩

/-- Python set.add on the document-link set, whose element equality is by
href (DocumentLink.__eq__/__hash__): an already-present href leaves the set
unchanged. -/
def addDocLink (s : List DocumentLink) (l : DocumentLink) : List DocumentLink :=
  if s.any (fun x => x.href = l.href) then s else s ++ [l]

/-- Embedding of EnhancedSeleniumScraper.extract_all_links (the document-link
set is threaded explicitly instead of living on self). -/
def extract_all_links (pdfTitle : String → Option String) (soup : List LinkElem)
    (base_url source_url : String) (document_links : List DocumentLink) :
    List DocumentLink :=
  soup.foldl (fun acc le =>
    match create_document_link pdfTitle le base_url (some source_url) with
    | some dl => addDocLink acc dl
    | none => acc) document_links

/-! ## find_quarterly_links -/

/-- The quarterly_keywords vocabulary of find_quarterly_links. -/
def quarterly_keywords : List String :=
  ["quarterly-result", "quarterly-report", "income-statement", "quarterly-earning",
   "financial-information", "financial-report", "q1", "q2", "q3", "q4",
   "1q", "2q", "3q", "4q", "10-q", "10-k", "financial-statements"]

/-- sum(1 for keyword in quarterly_keywords if keyword in s). -/
def keywordScore (s : String) : Nat :=
  (quarterly_keywords.filter (fun k => containsSub s.toList k.toList)).length

/-- A promising-link dict of find_quarterly_links. -/
structure PromLink where
  url : String
  text : String
  title : String
  score : Nat
  full_html : String
deriving DecidableEq, Repr

/-- Stable descending insertion by score, modeling list.sort(key=score,
reverse=True). -/
def insertByScoreDesc (x : PromLink) : List PromLink → List PromLink
  | [] => [x]
  | y :: ys => if x.score ≤ y.score then y :: insertByScoreDesc x ys else x :: y :: ys

def sortByScoreDesc (l : List PromLink) : List PromLink :=
  l.foldr insertByScoreDesc []

/-- Embedding of EnhancedSeleniumScraper.find_quarterly_links.  The visited
set is passed explicitly (self.visited_urls in the source). -/
def find_quarterly_links (visited : List String) (soup : List LinkElem)
    (base_url : String) (max_promising_links : Nat) : List PromLink :=
  let promising := soup.filterMap (fun le =>
    let a := le.render
    let textL := pyLowerS (pyStrip le.text)
    let titleL := pyLowerS le.title
    let link_type := classify_link le.href base_url
    if link_type = "invalid" || link_type = "document" then none
    else
      match resolve_url le.href base_url with
      | none => none
      | some full_url =>
        if visited.contains full_url then none
        else if is_url_excluded full_url then none
        else
          let score := keywordScore a + keywordScore (pyDash textL) +
            keywordScore (pyDash titleL) + keywordScore (pyDash full_url)
          if score > 0 then some ⟨full_url, pyStrip le.text, le.title, score, a⟩
          else none)
  (sortByScoreDesc promising).take max_promising_links

/-! ## The crawl loop (crawl_company_ir_site) -/

/-- The mutable traversal state of the scraper object: self.visited_urls and
self.document_links. -/
structure ScraperState where
  visited : List String
  document_links : List DocumentLink
deriving DecidableEq, Repr

/-- Python set.add on the visited-URL set. -/
def addVisited (s : List String) (u : String) : List String :=
  if s.contains u then s else s ++ [u]

/-- The while loop of crawl_company_ir_site.  site is the rendering oracle
(none models a page that failed to load after retries).  The second result
component logs each URL actually fetched together with the depth at which it
was fetched.  Fuel only bounds the number of loop iterations. -/
def crawl_loop (site : String → Option (List LinkElem)) (pdfTitle : String → Option String)
    (base_url : String) (max_depth max_promising_links : Nat) :
    Nat → ScraperState → List (String × Nat) → ScraperState × List (String × Nat)
  | 0, st, _ => (st, [])
  | _ + 1, st, [] => (st, [])
  | fuel + 1, st, (current_url, depth) :: rest =>
    if st.visited.contains current_url || max_depth < depth then
      crawl_loop site pdfTitle base_url max_depth max_promising_links fuel st rest
    else
      let st1 : ScraperState := ⟨addVisited st.visited current_url, st.document_links⟩
      match site current_url with
      | none =>
        let r := crawl_loop site pdfTitle base_url max_depth max_promising_links fuel st1 rest
        (r.1, (current_url, depth) :: r.2)
      | some soup =>
        let dl2 := extract_all_links pdfTitle soup current_url current_url st1.document_links
        let st2 : ScraperState := ⟨st1.visited, dl2⟩
        let queue2 :=
          if depth = 0 then
            rest ++ (find_quarterly_links st2.visited soup current_url
                max_promising_links).filterMap (fun pl =>
              if st2.visited.contains pl.url then none
              else if is_internal_link pl.url base_url then some (pl.url, depth + 1)
              else none)
          else rest
        let r := crawl_loop site pdfTitle base_url max_depth max_promising_links fuel st2 queue2
        (r.1, (current_url, depth) :: r.2)

/-- What crawl_company_ir_site computes: the final scraper state, the fetch
log, and the post-processing partitions of the collected links. -/
structure CrawlResult where
  state : ScraperState
  fetched : List (String × Nat)
  all_document_links : List DocumentLink
  navigational_links : List DocumentLink
  returned : List DocumentLink
deriving DecidableEq, Repr

/-- Embedding of EnhancedSeleniumScraper.crawl_company_ir_site.  It clears
self.document_links (but not self.visited_urls) before looping from
[(base_url, 0)], then partitions the collected links and filters the
document links to the latest quarter. -/
def crawl_company_ir_site (site : String → Option (List LinkElem))
    (pdfTitle : String → Option String) (current_year : Nat)
    (max_promising_links fuel : Nat) (base_url : String) (max_depth : Nat)
    (st : ScraperState) : CrawlResult :=
  let st0 : ScraperState := ⟨st.visited, []⟩
  let r := crawl_loop site pdfTitle base_url max_depth max_promising_links fuel st0
    [(base_url, 0)]
  let all_document_links := r.1.document_links.filter (fun l => l.is_document)
  let navigational_links := r.1.document_links.filter (fun l => l.is_navigational)
  let lp := find_latest_quarter current_year all_document_links
  let document_links := all_document_links.filter (fun l =>
    is_latest_quarter_document current_year l.text l.href l.title lp.1 lp.2)
  ⟨r.1, r.2, all_document_links, navigational_links, document_links⟩

/-! ## SimpleMetadataCollector (simple_metadata_collector.py)

The in-memory dict self.current_metadata is embedded as Option Metadata:
none models the empty dict before start_company_processing has run, in which
state the update and complete calls raise a KeyError when they read the
company key for their log line or filename.  Wall-clock readings and
filesystem effects are oracles.  Raising is modeled by Except.error. -/

/-- One entry of the downloaded_files list (the file_data dict built in
update_download_progress).  year and quarter are the strings that
parse_report_file produced. -/
structure FileData where
  title : String
  size : Nat
  checksum : Option String
  quarter : String
  year : String
  url : String
  download_timestamp : String
  source_page : String
  file_type : String
deriving DecidableEq, Repr

/-- The current_metadata dict initialized by start_company_processing. -/
structure Metadata where
  company : String
  ticker : String
  ir_url : String
  pipeline_start_time : String
  pipeline_end_time : Option String
  status : String
  error_message : Option String
  scraping_start_time : Option String
  scraping_end_time : Option String
  urls_visited : Nat
  urls_found : Nat
  extraction_start_time : Option String
  extraction_end_time : Option String
  model_used : Option String
  download_start_time : Option String
  download_end_time : Option String
  downloaded_files : List FileData
deriving DecidableEq, Repr

/-- The file-metadata dict that update_download_progress receives (built by
create_file_metadata on success, or the inline failed dict). -/
structure FileInfo where
  filename : String
  file_path : String
  file_size : Nat
  url : String
  title : String
  category : String
  year : String
  quarter : String
  download_timestamp : String
  source_url : String
  file_extension : String
  success : Bool
deriving DecidableEq, Repr

/-- Embedding of SimpleMetadataCollector.start_company_processing. -/
def start_company_processing (now : String) (company_name ticker ir_url : String) :
    Metadata :=
  ⟨company_name, ticker, ir_url, now, none, "in_progress", none, none, none,
   0, 0, none, none, none, none, none, []⟩

/-- Embedding of SimpleMetadataCollector.update_scraping_start. -/
def update_scraping_start (now : String) : Option Metadata → Except String Metadata
  | none => .error "KeyError: company"
  | some md => .ok { md with scraping_start_time := some now }

/-- Embedding of SimpleMetadataCollector.update_scraping_complete (max_depth
is only logged). -/
def update_scraping_complete (now : String) (document_links : List DocumentLink)
    (pages_visited _max_depth : Nat) : Option Metadata → Except String Metadata
  | none => .error "KeyError: company"
  | some md => .ok { md with
      scraping_end_time := some now
      urls_visited := pages_visited
      urls_found := document_links.length }

/-- Embedding of SimpleMetadataCollector.update_extraction_start. -/
def update_extraction_start (now : String) (_text_size_chars : Nat) (ai_model : String) :
    Option Metadata → Except String Metadata
  | none => .error "KeyError: company"
  | some md => .ok { md with
      extraction_start_time := some now
      model_used := some ai_model }

/-- Embedding of SimpleMetadataCollector.update_extraction_complete (the
report list and duration are only logged). -/
def update_extraction_complete (now : String) (_reports_count : Nat) :
    Option Metadata → Except String Metadata
  | none => .error "KeyError: company"
  | some md => .ok { md with extraction_end_time := some now }

/-- Embedding of SimpleMetadataCollector.update_download_start. -/
def update_download_start (now : String) (_files_to_download : Nat) :
    Option Metadata → Except String Metadata
  | none => .error "KeyError: company"
  | some md => .ok { md with download_start_time := some now }

/-- Embedding of SimpleMetadataCollector._calculate_checksum: file existence
and content digest come from oracles; any reading failure is swallowed into
None by the try/except of the source. -/
def calculate_checksum (fileExistsF : String → Bool) (readMd5 : String → Except String String)
    (file_path : String) : Option String :=
  if file_path = "" then none
  else if !(fileExistsF file_path) then none
  else
    match readMd5 file_path with
    | .ok h => some h
    | .error _ => none

/-- Embedding of SimpleMetadataCollector.update_download_progress. -/
def update_download_progress (fileExistsF : String → Bool)
    (readMd5 : String → Except String String) (file_info : FileInfo) :
    Option Metadata → Except String Metadata
  | none => .error "KeyError: downloaded_files"
  | some md =>
    if file_info.success then
      let checksum :=
        if file_info.file_path ≠ "" then
          calculate_checksum fileExistsF readMd5 file_info.file_path
        else none
      .ok { md with downloaded_files := md.downloaded_files ++
        [⟨file_info.title, file_info.file_size, checksum, file_info.quarter,
          file_info.year, file_info.url, file_info.download_timestamp,
          file_info.source_url, file_info.file_extension⟩] }
    else .ok md

/-- Embedding of SimpleMetadataCollector.update_download_complete. -/
def update_download_complete (now : String) : Option Metadata → Except String Metadata
  | none => .error "KeyError: company"
  | some md => .ok { md with download_end_time := some now }

/-- The three in-memory field updates at the top of
complete_company_processing. -/
def complete_mutate (now : String) (success : Bool) (error_message : Option String)
    (md : Metadata) : Metadata :=
  { md with
    pipeline_end_time := some now
    status := if success then "completed" else "failed"
    error_message := error_message }

/-- Embedding of SimpleMetadataCollector.complete_company_processing.
writeOk decides whether the json.dump to the metadata file succeeds;
durable storage is the appended (filename, record) log.  The result pairs
the collector state after the call with the outcome; a failing write leaves
the mutated in-memory record in place and raises. -/
def complete_company_processing (writeOk : String → Metadata → Bool) (now : String)
    (success : Bool) (error_message : Option String) :
    Option Metadata → List (String × Metadata) →
      Option Metadata × Except String (List (String × Metadata) × String)
  | none, _ => (none, .error "KeyError: company")
  | some md, fs =>
    let md2 := complete_mutate now success error_message md
    let filename := "metadata_" ++ md2.company ++ "_" ++ now ++ ".json"
    if writeOk filename md2 then (some md2, .ok (fs ++ [(filename, md2)], filename))
    else (some md2, .error "OSError: failed to write metadata file")

/-! ## The orchestrator (orchestrator.py, process_company) -/

/-- One parsed line of the extracted-reports file as the orchestrator
re-parses it in stage 2. -/
structure ReportData where
  title : String
  category : String
  url : String
  year : Option Nat
  quarter : Option Nat
  source_url : String
  file_extension : String
deriving DecidableEq, Repr

/-- One dict of parse_report_file (download_reports.py); year and quarter
stay strings there. -/
structure UrlData where
  url : String
  title : String
  category : String
  year : String
  quarter : String
deriving DecidableEq, Repr

/-- The external effects of one process_company run, fixed up front:
clock, the crawl outcome, file reads, the extraction collaborator, download
outcomes and the metadata write.  An Except.error models the corresponding
Python call raising. -/
structure PipelineEnv where
  now : String
  scrape : Except String (List DocumentLink × Nat)
  readIr : Except String String
  extractRep : Except String Unit
  irFileExists : Bool
  urlMeta : String → String × String
  reportFileExists : Bool
  extractedReports : List ReportData
  urlsData : List UrlData
  downloadOk : UrlData → Bool
  latestFile : UrlData → Option String
  fileExists : String → Bool
  fileSize : String → Nat
  readMd5 : String → Except String String
  writeOk : String → Metadata → Bool

/-- Python Path(p).name: the last path segment. -/
def pathName (p : String) : String :=
  String.mk ((p.toList.reverse.takeWhile (fun c => c ≠ '/')).reverse)

/-- Embedding of create_file_metadata (simple_metadata_collector.py). -/
def create_file_metadata (fileExistsF : String → Bool) (fileSizeF : String → Nat)
    (now : String) (file_path url title category year quarter source_url
    file_extension : String) : FileInfo :=
  let file_size := if fileExistsF file_path then fileSizeF file_path else 0
  ⟨pathName file_path, file_path, file_size, url, title, category, year, quarter,
   now, source_url, file_extension, true⟩

/-- The stage-3 download loop of process_company: per URL either a success
update (when a downloaded file can be located) or a failed-file update.
The orchestrator passes urls_data (env.urlsData) for urls. -/
def download_loop (env : PipelineEnv) (urls : List UrlData) (md : Metadata) :
    Except String Metadata :=
  urls.foldlM (fun md url_data => do
    let meta := if env.irFileExists then env.urlMeta url_data.url else ("", "")
    if env.downloadOk url_data then
      match env.latestFile url_data with
      | some latest_path =>
        let fi := create_file_metadata env.fileExists env.fileSize env.now latest_path
          url_data.url url_data.title url_data.category url_data.year url_data.quarter
          meta.1 meta.2
        update_download_progress env.fileExists env.readMd5 fi (some md)
      | none => pure md
    else
      let failed : FileInfo := ⟨"", "", 0, url_data.url, url_data.title,
        url_data.category, url_data.year, url_data.quarter, env.now, meta.1,
        meta.2, false⟩
      update_download_progress env.fileExists env.readMd5 failed (some md)) md

/-- The result dict returned by process_company. -/
structure CompanyResult where
  name : String
  status : String
  error : Option String
deriving DecidableEq, Repr

/-- The except branch of process_company: complete the run as failed with
str(e) and return the failed result; if that complete call itself raises,
the exception escapes process_company (to the worker future). -/
def process_company_handler (env : PipelineEnv) (company_name : String)
    (cm : Option Metadata) (e : String) :
    Except String (CompanyResult × List (String × Metadata)) :=
  match (complete_company_processing env.writeOk env.now false (some e) cm []).2 with
  | .ok (fs, _) => .ok (⟨company_name, "failed", some e⟩, fs)
  | .error e2 => .error e2

/-- Embedding of orchestrator.process_company.  Stage order, the collector
calls, and the single try/except follow the source.  The saving of the link
dump after the crawl swallows its own errors (inner try) and is not modeled
further.  When the extracted-reports file is missing, the source calls
metadata_collector.update_download_failed, a method SimpleMetadataCollector
does not define, so that branch raises an AttributeError. -/
def process_company (env : PipelineEnv) (company_name _company_url _ticker : String) :
    Except String (CompanyResult × List (String × Metadata)) :=
  let md0 := start_company_processing env.now company_name _ticker _company_url
  match update_scraping_start env.now (some md0) with
  | .error e => process_company_handler env company_name (some md0) e
  | .ok md1 =>
    match env.scrape with
    | .error e => process_company_handler env company_name (some md1) e
    | .ok (document_links, visitedCount) =>
      match update_scraping_complete env.now document_links visitedCount 2 (some md1) with
      | .error e => process_company_handler env company_name (some md1) e
      | .ok md2 =>
        match env.readIr with
        | .error e => process_company_handler env company_name (some md2) e
        | .ok html =>
          match update_extraction_start env.now html.length "google/gemini" (some md2) with
          | .error e => process_company_handler env company_name (some md2) e
          | .ok md3 =>
            match env.extractRep with
            | .error e => process_company_handler env company_name (some md3) e
            | .ok _ =>
              match update_extraction_complete env.now
                  (if env.reportFileExists then env.extractedReports.length else 0)
                  (some md3) with
              | .error e => process_company_handler env company_name (some md3) e
              | .ok md4 =>
                if env.reportFileExists then
                  match update_download_start env.now env.urlsData.length (some md4) with
                  | .error e => process_company_handler env company_name (some md4) e
                  | .ok md5 =>
                    match download_loop env env.urlsData md5 with
                    | .error e => process_company_handler env company_name (some md5) e
                    | .ok md6 =>
                      match update_download_complete env.now (some md6) with
                      | .error e => process_company_handler env company_name (some md6) e
                      | .ok md7 =>
                        match complete_company_processing env.writeOk env.now true none
                            (some md7) [] with
                        | (_, .ok (fs, _)) =>
                          .ok (⟨company_name, "success", none⟩, fs)
                        | (cm8, .error e) =>
                          process_company_handler env company_name cm8 e
                else
                  process_company_handler env company_name (some md4)
                    "AttributeError: SimpleMetadataCollector object has no attribute update_download_failed"

/-! ## Specification-side definitions, for comparison with the code -/

/-- The lexicographic ordering test on (year, quarter) periods. -/
def lexLeQ (p q : Nat × Nat) : Bool :=
  p.1 < q.1 || (p.1 = q.1 && p.2 ≤ q.2)

/-- The larger of two periods in lexicographic order. -/
def lexMaxPair (p q : Nat × Nat) : Nat × Nat :=
  if lexLeQ p q then q else p

/-- The periods of a link collection, as the spec words them: run the
extractor per link, default a missing quarter to 4, discard links with no
year. -/
def extracted_periods (current_year : Nat) (links : List DocumentLink) :
    List (Nat × Nat) :=
  links.filterMap (fun link =>
    match extract_year_quarter current_year link.text link.href link.title with
    | (some year, quarter) => some (year, quarter.getD 4)
    | (none, _) => none)

/-- The latest period as the spec words it: the maximum remaining period in
(year, quarter) lexicographic order, or (current year, 4) when no link
yields a year. -/
def latest_period_spec (current_year : Nat) (links : List DocumentLink) :
    Nat × Nat :=
  match extracted_periods current_year links with
  | [] => (current_year, 4)
  | p :: rest => rest.foldl lexMaxPair p

/-- The relevance policy as the spec words it: no year keeps, an older year
rejects, a newer year keeps, and within the latest year an unknown quarter
keeps while a known smaller quarter rejects. -/
def relevant_spec (doc_year doc_quarter : Option Nat) (latest_year latest_quarter : Nat) :
    Prop :=
  doc_year = none ∨
    ∃ y, doc_year = some y ∧
      (latest_year < y ∨
        (y = latest_year ∧
          (doc_quarter = none ∨ ∃ q, doc_quarter = some q ∧ latest_quarter ≤ q)))

/-- The suffix of a character list after its last dot, if any: the
last-dot-segment notion the spec uses for file extensions. -/
def afterLastDot : List Char → Option (List Char)
  | [] => none
  | c :: cs =>
    match afterLastDot cs with
    | some e => some e
    | none => if c = '.' then some cs else none

/-- The first stage failure of a process_company environment, if any: the
crawl, the link-file read, the extraction call, or the missing
update_download_failed attribute when the extracted-reports file is absent. -/
def pipelineFailure (env : PipelineEnv) : Option String :=
  match env.scrape with
  | .error e => some e
  | .ok _ =>
    match env.readIr with
    | .error e => some e
    | .ok _ =>
      match env.extractRep with
      | .error e => some e
      | .ok _ =>
        if env.reportFileExists then none
        else some "AttributeError: SimpleMetadataCollector object has no attribute update_download_failed"

/-! ## Concrete fixtures -/

/-- Seed URL of the concrete crawl fixtures. -/
def c5seed : String := "https://a.example/ir"

/-- The quarterly-results page linked from the seed. -/
def c5q1 : String := "https://a.example/q1"

/-- The seed page: one promising internal navigation link (its keyword score
is positive) and one document link. -/
def c5soup : List LinkElem :=
  [⟨"/q1", "Q1 results", ""⟩, ⟨"https://a.example/r.pdf", "Report fy25", ""⟩]

/-- The site oracle for the crawl fixtures. -/
def c5site : String → Option (List LinkElem) :=
  fun u => if u = c5seed then some c5soup else if u = c5q1 then some [] else none

/-- A pdf-title oracle that never finds a title. -/
def noPdf : String → Option String := fun _ => none

/-- A minimal site for the crawl-state fixture: the seed page has no links. -/
def c8site : String → Option (List LinkElem) :=
  fun u => if u = c5seed then some [] else none

/-- The DocumentLink the fixture crawl collects from the /q1 anchor. -/
def c10link : DocumentLink :=
  ⟨"https://a.example/q1", "Q1 results", "", "internal",
   "<a href=\"/q1\" title=\"\">Q1 results</a>", some "https://a.example/ir"⟩

/-- The five links of the testable property on find_latest_quarter: three
(2025,2) links, one (2025,4) link, one (2026, no-quarter) link. -/
def c1links : List DocumentLink :=
  [mkDocLink "q2 2025" "" "", mkDocLink "q2 2025" "" "", mkDocLink "q2 2025" "" "",
   mkDocLink "q4 2025" "" "", mkDocLink "2026" "" ""]

/-- A fully successful orchestration environment with one download. -/
def c6env : PipelineEnv :=
  ⟨"t0", .ok ([], 1), .ok "links", .ok (), true, fun _ => ("", ""), true, [],
   [⟨"https://a.example/r.pdf", "Report", "Quarterly", "2025", "2"⟩],
   fun _ => true, fun _ => some "/downloads/A/r.pdf", fun _ => false, fun _ => 0,
   fun _ => .error "unreadable", fun _ _ => true⟩

/-! ## Helper lemmas -/

theorem splitDot_ne_nil (cs : List Char) : splitDot cs ≠ [] := by
  induction cs with
  | nil => simp [splitDot]
  | cons c cs ih =>
    simp only [splitDot]
    split
    · simp
    · cases h : splitDot cs with
      | nil => simp
      | cons hh tt => simp

theorem splitDot_of_not_mem (cs : List Char) (h : '.' ∉ cs) : splitDot cs = [cs] := by
  induction cs with
  | nil => rfl
  | cons c cs ih =>
    rw [List.mem_cons, not_or] at h
    obtain ⟨h1, h2⟩ := h
    have hcc : ¬c = '.' := fun hcE => h1 hcE.symm
    simp only [splitDot, if_neg hcc]
    rw [ih h2]

theorem splitDot_singleton (cs : List Char) :
    ∀ x, splitDot cs = [x] → x = cs ∧ '.' ∉ cs := by
  induction cs with
  | nil =>
    intro x h
    simp only [splitDot] at h
    cases h
    simp
  | cons c cs ih =>
    intro x h
    simp only [splitDot] at h
    by_cases hc : c = '.'
    · rw [if_pos hc] at h
      obtain ⟨-, h2⟩ := List.cons_eq_cons.mp h
      exact absurd h2 (splitDot_ne_nil cs)
    · rw [if_neg hc] at h
      cases hsd : splitDot cs with
      | nil => exact absurd hsd (splitDot_ne_nil cs)
      | cons hh tt =>
        rw [hsd] at h
        obtain ⟨h1, h2⟩ := List.cons_eq_cons.mp h
        subst h2
        obtain ⟨h3, h4⟩ := ih hh hsd
        subst h3
        constructor
        · rw [← h1]
        · rw [List.mem_cons, not_or]
          exact ⟨fun hd => hc hd.symm, h4⟩

theorem afterLastDot_eq_none (cs : List Char) : afterLastDot cs = none ↔ '.' ∉ cs := by
  induction cs with
  | nil => simp [afterLastDot]
  | cons c cs ih =>
    simp only [afterLastDot]
    cases h : afterLastDot cs with
    | some e =>
      rw [h] at ih
      simp only [reduceCtorEq, false_iff] at ih ⊢
      push_neg at ih
      simp [ih]
    | none =>
      rw [h] at ih
      simp only [true_iff] at ih
      by_cases hc : c = '.'
      · simp [hc]
      · have hcc : ¬ ('.' = c) := fun hd => hc hd.symm
        simp [hc, ih, hcc]

theorem getLastD_cons_default {α : Type} (y : α) (ys : List α) (a b : α) :
    (y :: ys).getLastD a = (y :: ys).getLastD b := by
  rw [List.getLastD_cons, List.getLastD_cons]

theorem splitDot_getLastD (cs : List Char) :
    (splitDot cs).getLastD [] = (afterLastDot cs).getD cs := by
  induction cs with
  | nil => rfl
  | cons c cs ih =>
    simp only [splitDot]
    by_cases hc : c = '.'
    · rw [if_pos hc]
      rw [List.getLastD_cons]
      have hru : afterLastDot (c :: cs) =
          match afterLastDot cs with
          | some e => some e
          | none => if c = '.' then some cs else none := rfl
      cases h : afterLastDot cs with
      | some e =>
        rw [h] at ih
        rw [hru, h]
        simpa using ih
      | none =>
        rw [h] at ih
        rw [hru, h, if_pos hc]
        simpa using ih
    · rw [if_neg hc]
      have hru : afterLastDot (c :: cs) =
          match afterLastDot cs with
          | some e => some e
          | none => if c = '.' then some cs else none := rfl
      cases h : afterLastDot cs with
      | some e =>
        rw [h] at ih
        simp only [Option.getD_some] at ih
        rw [hru, h]
        cases hsd : splitDot cs with
        | nil => exact absurd hsd (splitDot_ne_nil cs)
        | cons hh tt =>
          rw [hsd] at ih
          cases tt with
          | nil =>
            obtain ⟨-, hnd⟩ := splitDot_singleton cs hh hsd
            rw [← afterLastDot_eq_none] at hnd
            rw [hnd] at h
            cases h
          | cons y ys =>
            simp only [Option.getD_some]
            rw [List.getLastD_cons] at ih
            rw [List.getLastD_cons]
            rw [getLastD_cons_default y ys (c :: hh) hh]
            exact ih
      | none =>
        have hnd : '.' ∉ cs := (afterLastDot_eq_none cs).mp h
        rw [splitDot_of_not_mem cs hnd]
        rw [hru, h, if_neg hc]
        rfl

theorem list_max_mem : ∀ {l : List Nat} {m : Nat}, list_max l = some m → m ∈ l := by
  intro l
  induction l with
  | nil => intro m h; cases h
  | cons x xs ih =>
    intro m h
    simp only [list_max] at h
    cases hx : list_max xs with
    | none => rw [hx] at h; cases h; exact List.mem_cons_self x xs
    | some k =>
      rw [hx] at h
      cases h
      rcases Nat.le_total x k with hle | hle
      · rw [Nat.max_eq_right hle]
        exact List.mem_cons_of_mem x (ih hx)
      · rw [Nat.max_eq_left hle]
        exact List.mem_cons_self x xs

theorem list_max_le : ∀ {l : List Nat} {m : Nat}, list_max l = some m → ∀ a ∈ l, a ≤ m := by
  intro l
  induction l with
  | nil => intro m h; cases h
  | cons x xs ih =>
    intro m h a ha
    simp only [list_max] at h
    cases hx : list_max xs with
    | none =>
      rw [hx] at h
      cases h
      rcases List.mem_cons.mp ha with rfl | ha2
      · exact Nat.le_refl a
      · cases hx2 : list_max xs with
        | none =>
          cases xs with
          | nil => cases ha2
          | cons y ys => simp only [list_max] at hx2; cases hy : list_max ys <;>
              rw [hy] at hx2 <;> cases hx2
        | some k => rw [hx2] at hx; cases hx
    | some k =>
      rw [hx] at h
      cases h
      rcases List.mem_cons.mp ha with rfl | ha2
      · exact Nat.le_max_left a k
      · exact Nat.le_trans (ih hx a ha2) (Nat.le_max_right x k)

theorem list_max_cons (x : Nat) (xs : List Nat) : ∃ m, list_max (x :: xs) = some m := by
  simp only [list_max]
  cases h : list_max xs with
  | none => exact ⟨x, rfl⟩
  | some k => exact ⟨max x k, rfl⟩

/-! ## Claim theorems: the extractor and the document-link model -/

/-- C3 (code bug): the 2-digit fiscal-year idioms are matched, but the
single-group matches fy25 and 25fy are consumed character by character
(len(match) == 2 holds for the string "25"), so the code records quarter 2
and the year string "205" instead of the year 2025: with current year 2025,
input fy25 extracts (205, 2), not year 2025.  The combined idiom fy26q2
works, and a bare 2-digit number is never a year. -/
theorem extractor_two_digit_fy_bug :
    extract_year_quarter 2025 "fy25" "" "" = (some 205, some 2) ∧
    extract_year_quarter 2025 "25fy" "" "" = (some 205, some 2) ∧
    extract_year_quarter 2025 "fy26q2" "" "" = (some 2026, some 2) ∧
    extract_year_quarter 2025 "25" "" "" = (none, none) := by decide

/-- C4 (code bug): the extractor can return the year 205, which is neither
the current calendar year nor the year after it, because the broken 2-digit
handling builds the string "205" and 205 passes the year <= current_year + 1
filter.  On input with no period markers it does return (None, None). -/
theorem extractor_year_outside_target_range :
    extract_year_quarter 2025 "earnings fy25 presentation" "" "" = (some 205, some 2) ∧
    (205 ≠ 2025 ∧ 205 ≠ 2026) ∧
    extract_year_quarter 2025 "no period markers" "" "" = (none, none) := by decide

/-- C9 (counterexample): for a URL whose only dots are in its domain, the
derived file_extension is not empty: the code splits the whole href on dots,
not the URL path, so https-example-com/page yields extension com/page. -/
theorem file_extension_domain_dots_counterexample :
    (mkDocLink "page" "https://example.com/page" "").file_extension = "com/page" ∧
    "com/page" ≠ "" := by decide

/-- C9 (amended): the derived file_extension equals the last dot-separated
segment of the entire href (not of the URL path), lowercased, and is empty
exactly when the href contains no dot at all. -/
theorem documentlink_file_extension_last_dot_segment :
    ∀ l : DocumentLink, l.file_extension =
      match afterLastDot l.href.toList with
      | some seg => String.mk (seg.map Char.toLower)
      | none => "" := by
  intro l
  show get_file_extension l.href = _
  unfold get_file_extension
  by_cases h0 : l.href = ""
  · rw [if_pos h0, h0]
    rfl
  · rw [if_neg h0]
    by_cases hd : l.href.toList.contains '.'
    · rw [if_pos hd]
      have hmem : '.' ∈ l.href.toList := by simpa using hd
      cases h : afterLastDot l.href.toList with
      | none =>
        rw [afterLastDot_eq_none] at h
        exact absurd hmem h
      | some seg =>
        have hs := splitDot_getLastD l.href.toList
        rw [h] at hs
        simp only [Option.getD_some] at hs
        rw [hs]
    · rw [if_neg hd]
      have hmem : '.' ∉ l.href.toList := by simpa using hd
      rw [(afterLastDot_eq_none _).mpr hmem]

/-- C2: the relevance filter agrees with the spec policy on every document
link and every latest period: a link with no extractable year is always
kept; an older year rejects; a newer year keeps; within the same year an
unknown quarter keeps, a known smaller quarter rejects, anything else
keeps. -/
theorem is_latest_quarter_document_spec :
    ∀ (l : DocumentLink) (current_year latest_year latest_quarter : Nat),
      (is_latest_quarter_document current_year l.text l.href l.title
          latest_year latest_quarter = true) ↔
      relevant_spec (extract_year_quarter current_year l.text l.href l.title).1
        (extract_year_quarter current_year l.text l.href l.title).2
        latest_year latest_quarter := by
  intro l cy ly lq
  unfold is_latest_quarter_document
  rcases h : extract_year_quarter cy l.text l.href l.title with ⟨dy, dq⟩
  simp only [h]
  cases dy with
  | none => simp [relevant_spec]
  | some y =>
    cases dq with
    | none =>
      simp only [relevant_spec, reduceCtorEq, Option.some.injEq, false_or]
      split_ifs with h1 h2
      · simp
        omega
      · simp
        omega
      · simp
        omega
    | some q =>
      simp only [relevant_spec, reduceCtorEq, Option.some.injEq, false_or]
      split_ifs with h1 h2 h3
      · simp
        omega
      · simp
        omega
      · simp
        omega
      · simp
        omega

/-! ## Characterizing the strings the extractor can record as years -/

theorem mem_reFindAux {α : Type} {m : Option Char → List Char → Option (α × Nat)} :
    ∀ (fuel : Nat) (prev : Option Char) (cs : List Char) (a : α),
      a ∈ reFindAux m fuel prev cs → ∃ p s n, m p s = some (a, n) := by
  intro fuel
  induction fuel with
  | zero => intro prev cs a h; cases h
  | succ fuel ih =>
    intro prev cs a h
    cases cs with
    | nil => cases h
    | cons c cs =>
      simp only [reFindAux] at h
      cases hm : m prev (c :: cs) with
      | none => rw [hm] at h; exact ih _ _ _ h
      | some an =>
        rcases an with ⟨a2, n⟩
        rw [hm] at h
        simp only at h
        rcases List.mem_cons.mp h with h1 | h2
        · exact ⟨prev, c :: cs, n, by rw [h1]; exact hm⟩
        · exact ih _ _ _ h2

theorem mem_reFindAll {α : Type} {m : Option Char → List Char → Option (α × Nat)}
    {s : List Char} {a : α} (h : a ∈ reFindAll m s) : ∃ p t n, m p t = some (a, n) :=
  mem_reFindAux _ _ _ _ h

theorem m_year_bound_out {p s a n} (h : m_year_bound p s = some (a, n)) :
    a = "2025" ∨ a = "2026" := by
  unfold m_year_bound at h
  split_ifs at h <;> cases h <;> simp

theorem m_year_qdash_out {p s a n} (h : m_year_qdash p s = some (a, n)) :
    a = "2025" ∨ a = "2026" := by
  unfold m_year_qdash at h
  split_ifs at h <;> (try split at h) <;> (try split_ifs at h) <;> cases h <;> simp

theorem m_qdash_year_out {p s a n} (h : m_qdash_year p s = some (a, n)) :
    a = "2025" ∨ a = "2026" := by
  unfold m_qdash_year at h
  split at h <;> (try split_ifs at h) <;> cases h <;> simp

theorem m_fy_year_out {p s a n} (h : m_fy_year p s = some (a, n)) :
    a = "2025" ∨ a = "2026" := by
  unfold m_fy_year at h
  split_ifs at h <;> cases h <;> simp

theorem m_year_fy_out {p s a n} (h : m_year_fy p s = some (a, n)) :
    a = "2025" ∨ a = "2026" := by
  unfold m_year_fy at h
  split_ifs at h <;> cases h <;> simp

/-- The set of component strings any 2-digit match can carry. -/
def two_digit_components : List String := ["1", "2", "3", "4", "5", "6", "25", "26"]

theorem mk_qdigit_mem {d : Char} (hd : qdigit d = true) :
    String.mk [d] ∈ two_digit_components := by
  unfold qdigit at hd
  simp only [Bool.or_eq_true, decide_eq_true_eq] at hd
  rcases hd with ((h | h) | h) | h <;> subst h <;> decide

theorem m_fy2_out {p s a n} (h : m_fy2 p s = some (a, n)) :
    a.1 ∈ two_digit_components ∧ a.2 ∈ two_digit_components := by
  unfold m_fy2 at h
  split_ifs at h <;> cases h <;> exact ⟨by decide, by decide⟩

theorem m_2fy_out {p s a n} (h : m_2fy p s = some (a, n)) :
    a.1 ∈ two_digit_components ∧ a.2 ∈ two_digit_components := by
  unfold m_2fy at h
  split_ifs at h <;> cases h <;> exact ⟨by decide, by decide⟩

theorem m_fyq_tail_out {t d k} (h : m_fyq_tail t = some (d, k)) :
    d ∈ two_digit_components := by
  unfold m_fyq_tail at h
  split at h <;> (try split_ifs at h) <;> (try cases h)
  · rename_i dd _ hcond
    simp only [Bool.and_eq_true] at hcond
    exact mk_qdigit_mem hcond.1
  · rename_i c dd _ hcond
    simp only [Bool.and_eq_true] at hcond
    exact mk_qdigit_mem hcond.1.2

theorem m_fy_sep_q_out {p s a n} (h : m_fy_sep_q p s = some (a, n)) :
    a.1 ∈ two_digit_components ∧ a.2 ∈ two_digit_components := by
  unfold m_fy_sep_q at h
  split_ifs at h <;> split at h <;> (try cases h)
  · rename_i _ dk heq
    exact ⟨show "25" ∈ two_digit_components by decide, m_fyq_tail_out heq⟩
  · rename_i _ _ dk heq
    exact ⟨show "26" ∈ two_digit_components by decide, m_fyq_tail_out heq⟩

theorem m_qfy_tail_out {t yy k} (h : m_qfy_tail t = some (yy, k)) :
    yy ∈ two_digit_components := by
  unfold m_qfy_tail at h
  split at h <;> (try split_ifs at h) <;> cases h <;> decide

theorem m_q_sep_fy_out {p s a n} (h : m_q_sep_fy p s = some (a, n)) :
    a.1 ∈ two_digit_components ∧ a.2 ∈ two_digit_components := by
  unfold m_q_sep_fy at h
  split at h <;> (try cases h)
  rename_i d rest
  split_ifs at h with hd
  split at h <;> (try cases h)
  rename_i yk heq
  exact ⟨mk_qdigit_mem hd, m_qfy_tail_out heq⟩

theorem mem_foldl_two_digit_step :
    ∀ (l : List (String × String)) (acc : List String × List Nat) (s : String),
      s ∈ (l.foldl two_digit_step acc).1 →
      s ∈ acc.1 ∨ ∃ m ∈ l, s = "20" ++ m.1 ∨ s = "20" ++ m.2 := by
  intro l
  induction l with
  | nil => intro acc s h; exact Or.inl h
  | cons m ms ih =>
    intro acc s h
    rw [List.foldl_cons] at h
    rcases ih _ s h with h1 | h2
    · unfold two_digit_step at h1
      split_ifs at h1
      · rcases List.mem_append.mp h1 with ha | hb
        · exact Or.inl ha
        · refine Or.inr ⟨m, List.mem_cons_self m ms, Or.inr ?_⟩
          simpa using hb
      · rcases List.mem_append.mp h1 with ha | hb
        · exact Or.inl ha
        · refine Or.inr ⟨m, List.mem_cons_self m ms, Or.inl ?_⟩
          simpa using hb
      · exact Or.inl h1
    · obtain ⟨m2, hm2, hs⟩ := h2
      exact Or.inr ⟨m2, List.mem_cons_of_mem m hm2, hs⟩

/-- Every string the extractor records as a candidate year parses to a value
of at least 201 (in fact one of 201..206, 2025, 2026), so in particular a
year the extractor returns is never the falsy 0. -/
theorem extract_year_quarter_year_pos {current_year : Nat} {text url title : String}
    {y : Nat} (h : (extract_year_quarter current_year text url title).1 = some y) :
    201 ≤ y := by
  unfold extract_year_quarter at h
  simp only at h
  have hy := list_max_mem h
  rw [List.mem_filterMap] at hy
  obtain ⟨s, hs, hval⟩ := hy
  have hips : pyInt? s = some y := by
    split at hval
    · rename_i v hv
      split_ifs at hval
      cases hval
      exact hv
    · cases hval
  have hset : s ∈ (["2025", "2026"] : List String) ∨
      s ∈ (["201", "202", "203", "204", "205", "206", "2025", "2026"] : List String) := by
    rcases List.mem_append.mp hs with h4 | h2
    · left
      rcases List.mem_append.mp h4 with h4 | hb
      rotate_left
      · obtain ⟨p, t, n, hm⟩ := mem_reFindAll hb
        rcases m_year_fy_out hm with rfl | rfl <;> simp
      rcases List.mem_append.mp h4 with h4 | hb
      rotate_left
      · obtain ⟨p, t, n, hm⟩ := mem_reFindAll hb
        rcases m_fy_year_out hm with rfl | rfl <;> simp
      rcases List.mem_append.mp h4 with h4 | hb
      rotate_left
      · obtain ⟨p, t, n, hm⟩ := mem_reFindAll hb
        rcases m_qdash_year_out hm with rfl | rfl <;> simp
      rcases List.mem_append.mp h4 with h4 | hb
      · obtain ⟨p, t, n, hm⟩ := mem_reFindAll h4
        rcases m_year_bound_out hm with rfl | rfl <;> simp
      · obtain ⟨p, t, n, hm⟩ := mem_reFindAll hb
        rcases m_year_qdash_out hm with rfl | rfl <;> simp
    · right
      rcases mem_foldl_two_digit_step _ _ _ h2 with hacc | ⟨m, hm, hcomp⟩
      · cases hacc
      · have hcs : m.1 ∈ two_digit_components ∧ m.2 ∈ two_digit_components := by
          rcases List.mem_append.mp hm with hm4 | hb
          rotate_left
          · obtain ⟨p, t, n, hmm⟩ := mem_reFindAll hb
            exact m_q_sep_fy_out hmm
          rcases List.mem_append.mp hm4 with hm4 | hb
          rotate_left
          · obtain ⟨p, t, n, hmm⟩ := mem_reFindAll hb
            exact m_fy_sep_q_out hmm
          rcases List.mem_append.mp hm4 with hm4 | hb
          · obtain ⟨p, t, n, hmm⟩ := mem_reFindAll hm4
            exact m_fy2_out hmm
          · obtain ⟨p, t, n, hmm⟩ := mem_reFindAll hb
            exact m_2fy_out hmm
        rcases hcomp with hc | hc
        · have hcmem := hcs.1
          simp only [two_digit_components, List.mem_cons, List.not_mem_nil, or_false] at hcmem
          subst hc
          rcases hcmem with h | h | h | h | h | h | h | h <;> rw [h] <;> decide
        · have hcmem := hcs.2
          simp only [two_digit_components, List.mem_cons, List.not_mem_nil, or_false] at hcmem
          subst hc
          rcases hcmem with h | h | h | h | h | h | h | h <;> rw [h] <;> decide
  rcases hset with hin | hin <;> fin_cases hin <;>
    first
      | (rw [show pyInt? "2025" = some 2025 from by decide] at hips; cases hips; omega)
      | (rw [show pyInt? "2026" = some 2026 from by decide] at hips; cases hips; omega)
      | (rw [show pyInt? "201" = some 201 from by decide] at hips; cases hips; omega)
      | (rw [show pyInt? "202" = some 202 from by decide] at hips; cases hips; omega)
      | (rw [show pyInt? "203" = some 203 from by decide] at hips; cases hips; omega)
      | (rw [show pyInt? "204" = some 204 from by decide] at hips; cases hips; omega)
      | (rw [show pyInt? "205" = some 205 from by decide] at hips; cases hips; omega)
      | (rw [show pyInt? "206" = some 206 from by decide] at hips; cases hips; omega)

/-! ## The latest period is the lexicographic maximum -/

theorem lexLeQ_refl (p : Nat × Nat) : lexLeQ p p = true := by
  unfold lexLeQ
  simp

theorem lexLeQ_trans {a b c : Nat × Nat} (h1 : lexLeQ a b = true) (h2 : lexLeQ b c = true) :
    lexLeQ a c = true := by
  unfold lexLeQ at *
  simp only [Bool.or_eq_true, Bool.and_eq_true, decide_eq_true_eq] at *
  omega

theorem lexLeQ_total (p q : Nat × Nat) : lexLeQ p q = true ∨ lexLeQ q p = true := by
  unfold lexLeQ
  simp only [Bool.or_eq_true, Bool.and_eq_true, decide_eq_true_eq]
  omega

theorem lexLeQ_antisymm {p q : Nat × Nat} (h1 : lexLeQ p q = true) (h2 : lexLeQ q p = true) :
    p = q := by
  unfold lexLeQ at *
  simp only [Bool.or_eq_true, Bool.and_eq_true, decide_eq_true_eq] at h1 h2
  have : p.1 = q.1 ∧ p.2 = q.2 := by omega
  exact Prod.ext_iff.mpr this

theorem lexMaxPair_le_left (p q : Nat × Nat) : lexLeQ p (lexMaxPair p q) = true := by
  unfold lexMaxPair
  split
  · assumption
  · exact lexLeQ_refl p

theorem lexMaxPair_le_right (p q : Nat × Nat) : lexLeQ q (lexMaxPair p q) = true := by
  unfold lexMaxPair
  split
  · exact lexLeQ_refl q
  · rcases lexLeQ_total p q with h | h
    · rename_i hn; exact absurd h hn
    · exact h

theorem foldl_lexMaxPair_mem :
    ∀ (rest : List (Nat × Nat)) (p : Nat × Nat), rest.foldl lexMaxPair p ∈ p :: rest := by
  intro rest
  induction rest with
  | nil => intro p; simp
  | cons q qs ih =>
    intro p
    rw [List.foldl_cons]
    have h := ih (lexMaxPair p q)
    rcases List.mem_cons.mp h with h1 | h1
    · rw [h1]
      unfold lexMaxPair
      split
      · simp
      · simp
    · simp only [List.mem_cons]
      right; right
      exact h1

theorem foldl_lexMaxPair_ub :
    ∀ (rest : List (Nat × Nat)) (p x : Nat × Nat), x ∈ p :: rest →
      lexLeQ x (rest.foldl lexMaxPair p) = true := by
  intro rest
  induction rest with
  | nil =>
    intro p x hx
    rcases List.mem_cons.mp hx with rfl | hx2
    · exact lexLeQ_refl x
    · cases hx2
  | cons q qs ih =>
    intro p x hx
    rw [List.foldl_cons]
    rcases List.mem_cons.mp hx with rfl | hx2
    · exact lexLeQ_trans (lexMaxPair_le_left x q)
        (ih (lexMaxPair x q) _ (List.mem_cons_self _ _))
    · rcases List.mem_cons.mp hx2 with rfl | hx3
      · exact lexLeQ_trans (lexMaxPair_le_right p x)
          (ih (lexMaxPair p x) _ (List.mem_cons_self _ _))
      · exact ih (lexMaxPair p q) x (List.mem_cons_of_mem _ hx3)

theorem list_max_some_of_ne_nil {l : List Nat} (h : l ≠ []) : ∃ m, list_max l = some m := by
  cases l with
  | nil => exact absurd rfl h
  | cons x xs => exact list_max_cons x xs

/-- The truthiness filter of find_latest_quarter never fires: its period
list is exactly the one the spec describes. -/
theorem find_latest_quarter_periods (current_year : Nat) (links : List DocumentLink) :
    links.filterMap (fun link =>
      match extract_year_quarter current_year link.text link.href link.title with
      | (some year, quarter) =>
        if year = 0 then none else some (year, quarter.getD 4)
      | (none, _) => none) = extracted_periods current_year links := by
  unfold extracted_periods
  induction links with
  | nil => rfl
  | cons l ls ih =>
    rw [List.filterMap_cons, List.filterMap_cons, ih]
    rcases he : extract_year_quarter current_year l.text l.href l.title with ⟨dy, dq⟩
    cases dy with
    | none => rfl
    | some y =>
      have hpos : 201 ≤ y := extract_year_quarter_year_pos (by rw [he])
      simp only
      rw [if_neg (by omega)]

theorem find_latest_quarter_eq_spec (current_year : Nat) (links : List DocumentLink) :
    find_latest_quarter current_year links = latest_period_spec current_year links := by
  unfold find_latest_quarter latest_period_spec
  rw [find_latest_quarter_periods]
  cases hp : extracted_periods current_year links with
  | nil => rfl
  | cons p rest =>
    simp only
    obtain ⟨ym, hym⟩ := list_max_cons p.1 (rest.map Prod.fst)
    have hym2 : list_max ((p :: rest).map Prod.fst) = some ym := by
      rw [List.map_cons]; exact hym
    rw [hym2]
    simp only [Option.getD_some]
    have hmem_ym : ym ∈ (p :: rest).map Prod.fst := list_max_mem hym2
    obtain ⟨z, hz, hz1⟩ := List.mem_map.mp hmem_ym
    have hzf : z ∈ (p :: rest).filter (fun yq => decide (yq.1 = ym)) := by
      rw [List.mem_filter]
      exact ⟨hz, by simp [hz1]⟩
    have hfil_ne : ((p :: rest).filter (fun yq => decide (yq.1 = ym))).map Prod.snd ≠ [] := by
      intro hcon
      rw [List.map_eq_nil_iff] at hcon
      rw [hcon] at hzf
      cases hzf
    obtain ⟨qm, hqm⟩ := list_max_some_of_ne_nil hfil_ne
    rw [hqm]
    simp only [Option.getD_some]
    have hqm_mem : qm ∈ ((p :: rest).filter (fun yq => decide (yq.1 = ym))).map Prod.snd :=
      list_max_mem hqm
    obtain ⟨w, hw, hw2⟩ := List.mem_map.mp hqm_mem
    have hw_mem : w ∈ p :: rest := (List.mem_filter.mp hw).1
    have hw1 : w.1 = ym := by
      have := (List.mem_filter.mp hw).2
      simpa using this
    have hpair_mem : (ym, qm) ∈ p :: rest := by
      have : w = (ym, qm) := by
        rw [Prod.ext_iff]
        exact ⟨hw1, hw2⟩
      rw [← this]
      exact hw_mem
    have hub : ∀ x ∈ p :: rest, lexLeQ x (ym, qm) = true := by
      intro x hx
      have hx1 : x.1 ≤ ym := list_max_le hym2 x.1 (List.mem_map.mpr ⟨x, hx, rfl⟩)
      by_cases hxy : x.1 = ym
      · have hxf : x ∈ (p :: rest).filter (fun yq => decide (yq.1 = ym)) := by
          rw [List.mem_filter]
          exact ⟨hx, by simp [hxy]⟩
        have hx2 : x.2 ≤ qm :=
          list_max_le hqm x.2 (List.mem_map.mpr ⟨x, hxf, rfl⟩)
        unfold lexLeQ
        simp only [Bool.or_eq_true, Bool.and_eq_true, decide_eq_true_eq]
        omega
      · unfold lexLeQ
        simp only [Bool.or_eq_true, Bool.and_eq_true, decide_eq_true_eq]
        omega
    have hM_mem : rest.foldl lexMaxPair p ∈ p :: rest := foldl_lexMaxPair_mem rest p
    have h1 : lexLeQ (ym, qm) (rest.foldl lexMaxPair p) = true :=
      foldl_lexMaxPair_ub rest p (ym, qm) hpair_mem
    have h2 : lexLeQ (rest.foldl lexMaxPair p) (ym, qm) = true :=
      hub _ hM_mem
    exact lexLeQ_antisymm h1 h2

/-- C1: find_latest_quarter extracts a period per link with the quarter
defaulted to 4 when missing, discards links with no year, and returns the
lexicographic maximum of the remaining periods, with fallback
(current year, 4); on the testable-property links with periods
three of (2025,2), one (2025,4) and one (2026, no quarter) it returns
(2026, 4). -/
theorem find_latest_quarter_is_lex_max :
    (∀ (current_year : Nat) (links : List DocumentLink),
        find_latest_quarter current_year links = latest_period_spec current_year links) ∧
    extracted_periods 2025 c1links = [(2025, 2), (2025, 2), (2025, 2), (2025, 4), (2026, 4)] ∧
    find_latest_quarter 2025 c1links = (2026, 4) ∧
    find_latest_quarter 2025 [] = (2025, 4) :=
  ⟨find_latest_quarter_eq_spec, by decide, by decide, by decide⟩

/-! ## Crawl loop invariants -/

theorem crawl_loop_nil {site pdfT base_url max_depth mp} :
    ∀ (fuel : Nat) (st : ScraperState),
      crawl_loop site pdfT base_url max_depth mp fuel st [] = (st, []) := by
  intro fuel st
  cases fuel <;> rfl

theorem crawl_loop_fetched_depth {site pdfT base_url max_depth mp} :
    ∀ (fuel : Nat) (st : ScraperState) (queue : List (String × Nat)) (e : String × Nat),
      e ∈ (crawl_loop site pdfT base_url max_depth mp fuel st queue).2 →
      e.2 ≤ max_depth := by
  intro fuel
  induction fuel with
  | zero => intro st q e h; cases h
  | succ fuel ih =>
    intro st q e h
    cases q with
    | nil =>
      rw [crawl_loop_nil] at h
      cases h
    | cons hd rest =>
      rcases hd with ⟨u, d⟩
      simp only [crawl_loop] at h
      by_cases hskip : (st.visited.contains u || decide (max_depth < d)) = true
      · rw [if_pos hskip] at h
        exact ih _ _ _ h
      · rw [if_neg hskip] at h
        have hd2 : d ≤ max_depth := by
          simp only [Bool.or_eq_true, decide_eq_true_eq, not_or] at hskip
          omega
        cases hsite : site u with
        | none =>
          rw [hsite] at h
          simp only at h
          rcases List.mem_cons.mp h with rfl | h2
          · exact hd2
          · exact ih _ _ _ h2
        | some soup =>
          rw [hsite] at h
          simp only at h
          rcases List.mem_cons.mp h with rfl | h2
          · exact hd2
          · exact ih _ _ _ h2

theorem crawl_loop_fetched_seed {site pdfT base_url mp} :
    ∀ (fuel : Nat) (st : ScraperState) (queue : List (String × Nat)),
      (∀ q ∈ queue, 0 < q.2 ∨ q.1 = base_url) →
      ∀ e ∈ (crawl_loop site pdfT base_url 0 mp fuel st queue).2, e.1 = base_url := by
  intro fuel
  induction fuel with
  | zero => intro st q hq e h; cases h
  | succ fuel ih =>
    intro st q hq e h
    cases q with
    | nil =>
      rw [crawl_loop_nil] at h
      cases h
    | cons hd rest =>
      rcases hd with ⟨u, d⟩
      have hrest : ∀ q ∈ rest, 0 < q.2 ∨ q.1 = base_url := by
        intro q hq2
        exact hq q (List.mem_cons_of_mem _ hq2)
      simp only [crawl_loop] at h
      by_cases hskip : (st.visited.contains u || decide (0 < d)) = true
      · rw [if_pos hskip] at h
        exact ih _ _ hrest e h
      · rw [if_neg hskip] at h
        have hd0 : d = 0 := by
          simp only [Bool.or_eq_true, decide_eq_true_eq, not_or] at hskip
          omega
        have hu : u = base_url := by
          rcases hq (u, d) (List.mem_cons_self _ _) with hpos | heq
          · exfalso; simp only [hd0] at hpos; omega
          · exact heq
        cases hsite : site u with
        | none =>
          rw [hsite] at h
          simp only at h
          rcases List.mem_cons.mp h with rfl | h2
          · exact hu
          · exact ih _ _ hrest e h2
        | some soup =>
          rw [hsite] at h
          simp only at h
          rcases List.mem_cons.mp h with rfl | h2
          · exact hu
          · refine ih _ _ ?_ e h2
            intro w hw
            rw [hd0] at hw
            simp only [if_pos rfl] at hw
            rcases List.mem_append.mp hw with hw1 | hw2
            · exact hrest w hw1
            · rw [List.mem_filterMap] at hw2
              obtain ⟨pl, hpl, hplw⟩ := hw2
              split_ifs at hplw
              cases hplw
              left
              omega

/-- C5: a frontier entry whose depth exceeds the configured maximum is never
fetched, and a crawl with depth ceiling 0 fetches no URL other than the seed;
on the concrete fixture the seed page yields a positively scored promising
link and the depth-0 crawl still fetches exactly the seed. -/
theorem crawl_depth_ceiling :
    (∀ (site : String → Option (List LinkElem)) (pdfT : String → Option String)
        (current_year mp fuel : Nat) (base_url : String) (max_depth : Nat)
        (st : ScraperState) (e : String × Nat),
        e ∈ (crawl_company_ir_site site pdfT current_year mp fuel base_url
            max_depth st).fetched →
        e.2 ≤ max_depth) ∧
    (∀ (site : String → Option (List LinkElem)) (pdfT : String → Option String)
        (current_year mp fuel : Nat) (base_url : String) (st : ScraperState)
        (e : String × Nat),
        e ∈ (crawl_company_ir_site site pdfT current_year mp fuel base_url 0 st).fetched →
        e.1 = base_url) ∧
    ((find_quarterly_links [c5seed] c5soup c5seed 5).length = 1 ∧
      (crawl_company_ir_site c5site noPdf 2025 5 10 c5seed 0 ⟨[], []⟩).fetched =
        [(c5seed, 0)] ∧
      (crawl_company_ir_site c5site noPdf 2025 5 10 c5seed 2 ⟨[], []⟩).fetched =
        [(c5seed, 0), (c5q1, 1)]) := by
  refine ⟨?_, ?_, by decide, by decide, by decide⟩
  · intro site pdfT cy mp fuel base_url max_depth st e h
    exact crawl_loop_fetched_depth fuel _ _ e h
  · intro site pdfT cy mp fuel base_url st e h
    refine crawl_loop_fetched_seed fuel _ _ ?_ e h
    intro q hq
    rcases List.mem_cons.mp hq with rfl | h2
    · right; rfl
    · cases h2

/-- C5 witness: the depth-bound invariant applied to the concrete depth-0
crawl at its only fetched entry. -/
theorem crawl_depth_ceiling_witness :
    ((c5seed, 0) ∈ (crawl_company_ir_site c5site noPdf 2025 5 10 c5seed 0
        ⟨[], []⟩).fetched) ∧ (c5seed, 0).1 = c5seed :=
  ⟨by decide, crawl_depth_ceiling.2.1 c5site noPdf 2025 5 10 c5seed ⟨[], []⟩
    (c5seed, 0) (by decide)⟩

/-- C8 (counterexample): crawl sessions do not start with a fresh visited
set.  A first crawl of the seed fetches it; a second crawl of the same seed
on the same scraper state fetches nothing at all, because visited_urls is
never cleared, so the second session does not re-visit its own seed URL. -/
theorem crawl_visited_persists_counterexample :
    (crawl_company_ir_site c8site noPdf 2025 5 10 c5seed 2 ⟨[], []⟩).fetched =
      [(c5seed, 0)] ∧
    (crawl_company_ir_site c8site noPdf 2025 5 10 c5seed 2
        (crawl_company_ir_site c8site noPdf 2025 5 10 c5seed 2 ⟨[], []⟩).state).fetched =
      [] := by decide

/-- C8 (amended): crawl_company_ir_site clears the collected-links set at
session start (its result never depends on the incoming document_links),
but the visited-URL set persists across sessions on the same scraper
instance: a crawl whose seed was already visited fetches nothing. -/
theorem crawl_session_state_amended :
    (∀ (site : String → Option (List LinkElem)) (pdfT : String → Option String)
        (current_year mp fuel : Nat) (base_url : String) (max_depth : Nat)
        (st : ScraperState),
        crawl_company_ir_site site pdfT current_year mp fuel base_url max_depth st =
        crawl_company_ir_site site pdfT current_year mp fuel base_url max_depth
          ⟨st.visited, []⟩) ∧
    (∀ (site : String → Option (List LinkElem)) (pdfT : String → Option String)
        (current_year mp fuel : Nat) (base_url : String) (max_depth : Nat)
        (st : ScraperState),
        st.visited.contains base_url = true →
        (crawl_company_ir_site site pdfT current_year mp fuel base_url
            max_depth st).fetched = []) := by
  constructor
  · intro site pdfT cy mp fuel base_url max_depth st
    rfl
  · intro site pdfT cy mp fuel base_url max_depth st hv
    unfold crawl_company_ir_site
    simp only
    cases fuel with
    | zero => rfl
    | succ fuel =>
      simp only [crawl_loop]
      rw [if_pos (by simp only [Bool.or_eq_true]; exact Or.inl hv)]
      rw [crawl_loop_nil]

/-- C8 witness: the amended persistence statement applied to a state that
already contains the seed. -/
theorem crawl_session_state_amended_witness :
    ((⟨[c5seed], []⟩ : ScraperState).visited.contains c5seed = true) ∧
    (crawl_company_ir_site c8site noPdf 2025 5 10 c5seed 2
      ⟨[c5seed], []⟩).fetched = [] :=
  ⟨by decide, crawl_session_state_amended.2 c8site noPdf 2025 5 10 c5seed 2
    ⟨[c5seed], []⟩ (by decide)⟩

/-! ## The classifier never produces a navigational link -/

theorem classify_link_cases (href base_url : String) (h : href ≠ "") :
    classify_link href base_url = "document" ∨ classify_link href base_url = "internal" ∨
      classify_link href base_url = "external" := by
  unfold classify_link
  rw [if_neg h]
  split_ifs <;> tauto

theorem append_ne_empty_right (a b : String) (h : b ≠ "") : a ++ b ≠ "" := by
  intro hc
  apply h
  have hd := congrArg String.data hc
  rw [String.data_append] at hd
  have hb := (List.append_eq_nil.mp hd).2
  cases b with
  | mk l =>
    simp only [String.data] at hb
    rw [show ("" : String) = ⟨[]⟩ from rfl]
    exact congrArg String.mk hb

theorem urljoin_ne_empty (base href : String) (h : href ≠ "") : urljoin base href ≠ "" := by
  unfold urljoin
  split_ifs
  · exact h
  · exact append_ne_empty_right _ _ h
  · exact append_ne_empty_right _ _ h

theorem resolve_url_ne_empty {href base_url u : String}
    (h : resolve_url href base_url = some u) : u ≠ "" := by
  unfold resolve_url at h
  split_ifs at h with h1 h2 <;> (try cases h) <;>
    first
      | exact h1
      | exact urljoin_ne_empty base_url href h1

theorem create_document_link_good {pdfT : String → Option String} {le : LinkElem}
    {base_url : String} {source_url : Option String} {dl : DocumentLink}
    (h : create_document_link pdfT le base_url source_url = some dl) :
    dl.link_type = "document" ∨ dl.link_type = "internal" ∨ dl.link_type = "external" := by
  unfold create_document_link at h
  cases hr : resolve_url le.href base_url with
  | none => rw [hr] at h; cases h
  | some fu =>
    rw [hr] at h
    simp only at h
    cases h
    exact classify_link_cases fu base_url (resolve_url_ne_empty hr)

theorem extract_all_links_good {pdfT : String → Option String} {base_url source_url : String} :
    ∀ (soup : List LinkElem) (acc : List DocumentLink),
      (∀ l ∈ acc, l.link_type = "document" ∨ l.link_type = "internal" ∨
        l.link_type = "external") →
      ∀ l ∈ extract_all_links pdfT soup base_url source_url acc,
        l.link_type = "document" ∨ l.link_type = "internal" ∨ l.link_type = "external" := by
  intro soup
  induction soup with
  | nil => intro acc hacc l hl; exact hacc l hl
  | cons le les ih =>
    intro acc hacc l hl
    unfold extract_all_links at hl
    rw [List.foldl_cons] at hl
    refine ih _ ?_ l hl
    intro w hw
    cases hc : create_document_link pdfT le base_url (some source_url) with
    | none =>
      rw [hc] at hw
      exact hacc w hw
    | some dl =>
      rw [hc] at hw
      simp only at hw
      unfold addDocLink at hw
      split_ifs at hw
      · exact hacc w hw
      · rcases List.mem_append.mp hw with hw1 | hw2
        · exact hacc w hw1
        · rcases List.mem_singleton.mp hw2 with rfl
          exact create_document_link_good hc

theorem crawl_loop_doclinks_good {site : String → Option (List LinkElem)}
    {pdfT : String → Option String} {base_url : String} {max_depth mp : Nat} :
    ∀ (fuel : Nat) (st : ScraperState) (queue : List (String × Nat)),
      (∀ l ∈ st.document_links, l.link_type = "document" ∨ l.link_type = "internal" ∨
        l.link_type = "external") →
      ∀ l ∈ (crawl_loop site pdfT base_url max_depth mp fuel st queue).1.document_links,
        l.link_type = "document" ∨ l.link_type = "internal" ∨ l.link_type = "external" := by
  intro fuel
  induction fuel with
  | zero => intro st q hst l hl; exact hst l hl
  | succ fuel ih =>
    intro st q hst l hl
    cases q with
    | nil =>
      rw [crawl_loop_nil] at hl
      exact hst l hl
    | cons hd rest =>
      rcases hd with ⟨u, d⟩
      simp only [crawl_loop] at hl
      by_cases hskip : (st.visited.contains u || decide (max_depth < d)) = true
      · rw [if_pos hskip] at hl
        exact ih _ _ hst l hl
      · rw [if_neg hskip] at hl
        cases hsite : site u with
        | none =>
          rw [hsite] at hl
          simp only at hl
          exact ih ⟨addVisited st.visited u, st.document_links⟩ rest hst l hl
        | some soup =>
          rw [hsite] at hl
          simp only at hl
          refine ih _ _ ?_ l hl
          intro w hw
          exact extract_all_links_good soup _ hst w hw

/-- C10: every link the crawler collects is classified document, internal or
external, never navigational, so the is_navigational partition computed at
the end of a crawl is always empty. -/
theorem crawler_links_never_navigational :
    (∀ (site : String → Option (List LinkElem)) (pdfT : String → Option String)
        (current_year mp fuel : Nat) (base_url : String) (max_depth : Nat)
        (st : ScraperState) (l : DocumentLink),
        l ∈ (crawl_company_ir_site site pdfT current_year mp fuel base_url
            max_depth st).state.document_links →
        (l.link_type = "document" ∨ l.link_type = "internal" ∨
          l.link_type = "external") ∧ l.is_navigational = false) ∧
    (∀ (site : String → Option (List LinkElem)) (pdfT : String → Option String)
        (current_year mp fuel : Nat) (base_url : String) (max_depth : Nat)
        (st : ScraperState),
        (crawl_company_ir_site site pdfT current_year mp fuel base_url
          max_depth st).navigational_links = []) := by
  have hmain : ∀ (site : String → Option (List LinkElem)) (pdfT : String → Option String)
      (current_year mp fuel : Nat) (base_url : String) (max_depth : Nat)
      (st : ScraperState) (l : DocumentLink),
      l ∈ (crawl_company_ir_site site pdfT current_year mp fuel base_url
          max_depth st).state.document_links →
      (l.link_type = "document" ∨ l.link_type = "internal" ∨
        l.link_type = "external") ∧ l.is_navigational = false := by
    intro site pdfT cy mp fuel base_url md st l hl
    unfold crawl_company_ir_site at hl
    simp only at hl
    have hgood := crawl_loop_doclinks_good fuel ⟨st.visited, []⟩ [(base_url, 0)]
      (by intro w hw; cases hw) l hl
    refine ⟨hgood, ?_⟩
    unfold DocumentLink.is_navigational
    rcases hgood with h | h | h <;> simp [h]
  constructor
  · exact hmain
  · intro site pdfT cy mp fuel base_url md st
    unfold crawl_company_ir_site
    simp only
    rw [List.filter_eq_nil_iff]
    intro l hl
    have := (hmain site pdfT cy mp fuel base_url md st l (by
      unfold crawl_company_ir_site
      simp only
      exact hl)).2
    unfold DocumentLink.is_navigational at this ⊢
    simp only [this]
    simp

/-- C10 witness: the never-navigational property applied to the link the
fixture crawl collects. -/
theorem crawler_links_never_navigational_witness :
    (c10link ∈ (crawl_company_ir_site c5site noPdf 2025 5 10 c5seed 2
        ⟨[], []⟩).state.document_links) ∧
    ((c10link.link_type = "document" ∨ c10link.link_type = "internal" ∨
      c10link.link_type = "external") ∧ c10link.is_navigational = false) :=
  ⟨by decide, crawler_links_never_navigational.1 c5site noPdf 2025 5 10 c5seed 2
    ⟨[], []⟩ c10link (by decide)⟩

/-! ## Orchestrator error handling -/

theorem update_download_progress_ok (fe : String → Bool)
    (rm : String → Except String String) (fi : FileInfo) (md : Metadata) :
    ∃ md2, update_download_progress fe rm fi (some md) = .ok md2 ∧
      md2.company = md.company := by
  unfold update_download_progress
  split_ifs <;> exact ⟨_, rfl, rfl⟩

theorem download_loop_ok (env : PipelineEnv) :
    ∀ (urls : List UrlData) (md : Metadata),
      ∃ md2, download_loop env urls md = .ok md2 ∧
        md2.company = md.company := by
  intro urls
  induction urls with
  | nil =>
    intro md
    exact ⟨md, rfl, rfl⟩
  | cons ud uds ih =>
    intro md
    unfold download_loop
    simp only [List.foldlM_cons]
    unfold download_loop at ih
    simp only at ih ⊢
    by_cases hdl : env.downloadOk ud = true
    · rw [if_pos hdl]
      cases hlf : env.latestFile ud with
      | some p =>
        simp only
        obtain ⟨md2, he, hc⟩ := update_download_progress_ok env.fileExists env.readMd5
          (create_file_metadata env.fileExists env.fileSize env.now p ud.url ud.title
            ud.category ud.year ud.quarter
            (if env.irFileExists then env.urlMeta ud.url else ("", "")).1
            (if env.irFileExists then env.urlMeta ud.url else ("", "")).2) md
        rw [he]
        obtain ⟨md3, he3, hc3⟩ := ih md2
        refine ⟨md3, ?_, by rw [hc3, hc]⟩
        exact he3
      | none =>
        simp only
        obtain ⟨md3, he3, hc3⟩ := ih md
        refine ⟨md3, ?_, hc3⟩
        exact he3
    · rw [if_neg hdl]
      obtain ⟨md2, he, hc⟩ := update_download_progress_ok env.fileExists env.readMd5
        ⟨"", "", 0, ud.url, ud.title, ud.category, ud.year, ud.quarter, env.now,
          (if env.irFileExists then env.urlMeta ud.url else ("", "")).1,
          (if env.irFileExists then env.urlMeta ud.url else ("", "")).2, false⟩ md
      rw [he]
      obtain ⟨md3, he3, hc3⟩ := ih md2
      refine ⟨md3, ?_, by rw [hc3, hc]⟩
      exact he3

theorem download_loop_ne_error (env : PipelineEnv) (urls : List UrlData) (md : Metadata)
    (e : String) : download_loop env urls md ≠ .error e := by
  obtain ⟨md2, he, -⟩ := download_loop_ok env urls md
  intro hc
  rw [he] at hc
  cases hc

theorem download_loop_company {env : PipelineEnv} {urls : List UrlData}
    {md md2 : Metadata} (h : download_loop env urls md = .ok md2) :
    md2.company = md.company := by
  obtain ⟨md3, he, hc⟩ := download_loop_ok env urls md
  rw [he] at h
  cases h
  exact hc

/-- C6: whatever the stage outcomes, process_company writes exactly one run
record; it carries the company name, status completed with no error message
when every stage succeeded, and status failed with the message of the
raising stage when any stage raised; the exception is caught inside
process_company, which returns a result instead of propagating. -/
theorem process_company_record_once :
    ∀ (env : PipelineEnv) (company_name company_url ticker : String),
      (∀ f m, env.writeOk f m = true) →
      ∃ (result : CompanyResult) (fname : String) (record : Metadata),
        process_company env company_name company_url ticker =
          .ok (result, [(fname, record)]) ∧
        record.company = company_name ∧
        (pipelineFailure env = none → record.status = "completed" ∧
          record.error_message = none ∧ result.status = "success" ∧
          result.error = none) ∧
        (∀ e, pipelineFailure env = some e → record.status = "failed" ∧
          record.error_message = some e ∧ result.status = "failed" ∧
          result.error = some e) := by
  intro env n u t hw
  unfold process_company process_company_handler pipelineFailure
  simp only [update_scraping_start]
  cases hs : env.scrape with
  | error e =>
    simp only [complete_company_processing, complete_mutate, hw, if_true]
    refine ⟨_, _, _, rfl, rfl, ?_, ?_⟩
    · intro hnone; cases hnone
    · intro e2 he2
      cases he2
      exact ⟨rfl, rfl, rfl, rfl⟩
  | ok sr =>
    rcases sr with ⟨dls, vc⟩
    simp only [update_scraping_complete]
    cases hr : env.readIr with
    | error e =>
      simp only [complete_company_processing, complete_mutate, hw, if_true]
      refine ⟨_, _, _, rfl, rfl, ?_, ?_⟩
      · intro hnone; cases hnone
      · intro e2 he2
        cases he2
        exact ⟨rfl, rfl, rfl, rfl⟩
    | ok html =>
      simp only [update_extraction_start]
      cases hx : env.extractRep with
      | error e =>
        simp only [complete_company_processing, complete_mutate, hw, if_true]
        refine ⟨_, _, _, rfl, rfl, ?_, ?_⟩
        · intro hnone; cases hnone
        · intro e2 he2
          cases he2
          exact ⟨rfl, rfl, rfl, rfl⟩
      | ok uu =>
        simp only [update_extraction_complete]
        by_cases hrep : env.reportFileExists = true
        · rw [if_pos hrep, if_pos hrep]
          simp only [update_download_start]
          split
          · rename_i e heq
            exact absurd heq (download_loop_ne_error env env.urlsData _ e)
          · rename_i md6 heq
            simp only [update_download_complete, complete_company_processing,
              complete_mutate, hw, if_true]
            refine ⟨_, _, _, rfl, ?_, ?_, ?_⟩
            · exact (download_loop_company heq).trans rfl
            · intro hnone
              exact ⟨rfl, rfl, rfl, rfl⟩
            · intro e2 he2
              cases he2
        · rw [if_neg hrep, if_neg hrep]
          simp only [complete_company_processing, complete_mutate, hw, if_true]
          refine ⟨_, _, _, rfl, rfl, ?_, ?_⟩
          · intro hnone; cases hnone
          · intro e2 he2
            cases he2
            exact ⟨rfl, rfl, rfl, rfl⟩

/-- C6 witness: the exactly-once record property applied to a concrete fully
successful environment whose writes succeed. -/
theorem process_company_record_once_witness :
    ∃ (result : CompanyResult) (fname : String) (record : Metadata),
      process_company c6env "Apple" "https://investor.apple.com" "AAPL" =
        .ok (result, [(fname, record)]) ∧
      record.company = "Apple" ∧
      (pipelineFailure c6env = none → record.status = "completed" ∧
        record.error_message = none ∧ result.status = "success" ∧
        result.error = none) ∧
      (∀ e, pipelineFailure c6env = some e → record.status = "failed" ∧
        record.error_message = some e ∧ result.status = "failed" ∧
        result.error = some e) :=
  process_company_record_once c6env "Apple" "https://investor.apple.com" "AAPL"
    (fun _ _ => rfl)

/-- C7 (counterexample): a recorder call can raise.  When the metadata file
write fails, complete_company_processing propagates the failure to its
caller instead of swallowing it. -/
theorem recorder_write_failure_raises :
    (complete_company_processing (fun _ _ => false) "t0" true none
      (some (start_company_processing "t0" "Apple" "AAPL"
        "https://investor.apple.com")) []).2 =
    .error "OSError: failed to write metadata file" := rfl

/-- C7 (amended): once a run has been started, every stage-transition update
of the recorder only mutates the in-memory record and returns normally, and
the checksum helper swallows read failures into None, but the terminal
complete call performs a file write whose failure propagates an exception to
the caller. -/
theorem recorder_raise_behavior :
    (∀ (now : String) (md : Metadata), ∃ md2,
        update_scraping_start now (some md) = .ok md2) ∧
    (∀ (now : String) (dls : List DocumentLink) (pv d : Nat) (md : Metadata), ∃ md2,
        update_scraping_complete now dls pv d (some md) = .ok md2) ∧
    (∀ (now : String) (ts : Nat) (am : String) (md : Metadata), ∃ md2,
        update_extraction_start now ts am (some md) = .ok md2) ∧
    (∀ (now : String) (rc : Nat) (md : Metadata), ∃ md2,
        update_extraction_complete now rc (some md) = .ok md2) ∧
    (∀ (now : String) (ftd : Nat) (md : Metadata), ∃ md2,
        update_download_start now ftd (some md) = .ok md2) ∧
    (∀ (fe : String → Bool) (rm : String → Except String String) (fi : FileInfo)
        (md : Metadata), ∃ md2,
        update_download_progress fe rm fi (some md) = .ok md2) ∧
    (∀ (now : String) (md : Metadata), ∃ md2,
        update_download_complete now (some md) = .ok md2) ∧
    (∀ (fe : String → Bool) (fp e : String),
        calculate_checksum fe (fun _ => .error e) fp = none) ∧
    (∀ (now : String) (success : Bool) (em : Option String) (md : Metadata)
        (fs : List (String × Metadata)),
        (complete_company_processing (fun _ _ => false) now success em (some md) fs).2 =
          .error "OSError: failed to write metadata file") := by
  refine ⟨?_, ?_, ?_, ?_, ?_, ?_, ?_, ?_, ?_⟩
  · intro now md; exact ⟨_, rfl⟩
  · intro now dls pv d md; exact ⟨_, rfl⟩
  · intro now ts am md; exact ⟨_, rfl⟩
  · intro now rc md; exact ⟨_, rfl⟩
  · intro now ftd md; exact ⟨_, rfl⟩
  · intro fe rm fi md
    obtain ⟨md2, he, -⟩ := update_download_progress_ok fe rm fi md
    exact ⟨md2, he⟩
  · intro now md; exact ⟨_, rfl⟩
  · intro fe fp e
    unfold calculate_checksum
    split_ifs <;> rfl
  · intro now success em md fs
    rfl
